import Mathlib

set_option maxRecDepth 8000

/-!
Verification of the mfract fraction parser (src/main.rs).

The pipeline is embedded shallowly: strings are lists of characters, the
u64 type is modelled as Nat together with the explicit bound U64MAX and
checked operations returning Option, and the u8 scale field is modelled
as Nat with the explicit cap used by the source. Each Lean definition
mirrors the Rust function of the same name.
-/

namespace Mfract

/-- Largest value of the 64-bit unsigned integer type used by the source. -/
def U64MAX : Nat := 18446744073709551615

/-- Error type of the pipeline: a numeric code paired with a message,
mirroring Result of (u8, String) in the source. -/
abbrev Err := Nat × String

/-- Scaled integer produced by the converter stage (struct MyNum in the
source): mant is the u64 mantissa and exp the u8 count of digits after
the decimal separator. -/
structure MyNum where
  mant : Nat
  exp : Nat
deriving Repr, DecidableEq

/-- Result type of the pipeline (struct Fract in the source). -/
structure Fract where
  numer : Nat
  denom : Nat
deriving Repr, DecidableEq

/-- Role tag passed to the converter, used only for error messages
(enum FType in the source). -/
inductive FType where
  | Num
  | Den
deriving Repr, DecidableEq

/-- Numeric value of a single decimal digit character. -/
def charVal (c : Char) : Nat := c.toNat - 48

/-- Value of a digit string read as a base-10 integer, as the Rust
str::parse would compute it on an all-digit string. -/
def digitsVal (s : List Char) : Nat := s.foldl (fun v c => 10 * v + charVal c) 0

/-- Model of gn_mant.parse::<u64>() on a string of ASCII decimal digits,
the only mantissa strings the ASCII-fragment matchers produce: succeeds
with the base-10 value exactly when that value fits in 64 unsigned bits.
On non-ASCII digit strings the real conversion fails unconditionally. -/
def parse_u64 (s : List Char) : Option Nat :=
  if digitsVal s ≤ U64MAX then some (digitsVal s) else none

/-- Model of u64 checked_mul. -/
def checked_mul (a b : Nat) : Option Nat :=
  if a * b ≤ U64MAX then some (a * b) else none

/-- Model of 10_u64.checked_pow e. For base 10 the checked result is
Some (10 ^ e) exactly when 10 ^ e fits in 64 unsigned bits. -/
def checked_pow10 (e : Nat) : Option Nat :=
  if 10 ^ e ≤ U64MAX then some (10 ^ e) else none

/-- Model of u8::try_from(n).unwrap_or(0): the value when it fits in
8 unsigned bits, 0 otherwise. -/
def u8_try_from_or0 (n : Nat) : Nat := if n ≤ 255 then n else 0

/-- Matcher of the anchored pattern RX_NUM1, one or more decimal digits:
a nonempty all-digit string. The digit class is modelled as the ASCII
digits: the regex crate reads the digit class as the Unicode decimal
digits, whose ASCII fragment is exactly 0 to 9, so on ASCII input this
matcher coincides with the program; theorems about digit shapes therefore
carry explicit ASCII-digit hypotheses. -/
def rxNum1 (s : List Char) : Bool := !s.isEmpty && s.all Char.isDigit

/-- Matcher of the anchored pattern RX_NUM2, digits then one separator
(comma or dot) then digits, returning the two capture groups. The match
is located at the maximal leading digit run, which is the unique possible
decomposition. As with RX_NUM1 the digit class is modelled as its ASCII
fragment, on which it coincides with the program. -/
def rxNum2 (s : List Char) : Option (List Char × List Char) :=
  match s.dropWhile Char.isDigit with
  | c :: p2 =>
      if !(s.takeWhile Char.isDigit).isEmpty && (c == ',' || c == '.') &&
          !p2.isEmpty && p2.all Char.isDigit
      then some (s.takeWhile Char.isDigit, p2) else none
  | [] => none

/-- Role label used in the converter error messages. -/
def labelF : FType → String
  | FType.Num => "Numerator"
  | FType.Den => "Denominator"

/-- Converter stage (fn get_num in the source): classify the substring by
the two number shapes, build the concatenated mantissa string together
with the capped u8 scale, then convert the mantissa string to u64. -/
def get_num (stype : FType) (sval : List Char) : Except Err MyNum :=
  let label := labelF stype
  let shaped : Except Err (List Char × Nat) :=
    if rxNum1 sval then
      Except.ok (sval, 0)
    else
      match rxNum2 sval with
      | some (p1, p2) => Except.ok (p1 ++ p2, u8_try_from_or0 p2.length)
      | none => Except.error (22, "Cant parse " ++ label ++ " = " ++ String.mk sval)
  match shaped with
  | Except.error e => Except.error e
  | Except.ok (gn_mant, gn_exp) =>
    match parse_u64 gn_mant with
    | some v => Except.ok ⟨v, gn_exp⟩
    | none => Except.error (24, "Integer overflow " ++ label ++ " = " ++ String.mk sval)

/-- Matcher of the anchored pattern RX_FRACT1, one or more characters
other than the slash. -/
def rxFract1 (s : List Char) : Bool := !s.isEmpty && s.all (· != '/')

/-- Matcher of the anchored pattern RX_FRACT2, a nonempty slash-free
segment, one slash, a nonempty slash-free segment, returning the two
capture groups. The first capture is the maximal slash-free prefix, the
unique possible decomposition. -/
def rxFract2 (s : List Char) : Option (List Char × List Char) :=
  match s.dropWhile (· != '/') with
  | c :: p2 =>
      if !(s.takeWhile (· != '/')).isEmpty && c == '/' &&
          !p2.isEmpty && p2.all (· != '/')
      then some (s.takeWhile (· != '/'), p2) else none
  | [] => none

/-- Splitter step at the top of fn get_fract: try RX_FRACT1 (defaulting
the denominator substring to the literal 1), then RX_FRACT2, else fail
with code 14. -/
def splitFract (s : List Char) : Except Err (List Char × List Char) :=
  if rxFract1 s then Except.ok (s, ['1'])
  else
    match rxFract2 s with
    | some (a, b) => Except.ok (a, b)
    | none => Except.error (14, "Could not parse fraction")

/-- Exponent alignment step of fn get_fract: compute the absolute scale
difference, the checked power of ten (code 16 on overflow), and scale
exactly one mantissa with a checked multiply (code 18 on the denominator
side, code 20 on the numerator side). -/
def alignFract (val_num val_den : MyNum) : Except Err Fract :=
  let exp_p10 :=
    if val_num.exp > val_den.exp then val_num.exp - val_den.exp
    else val_den.exp - val_num.exp
  match checked_pow10 exp_p10 with
  | none => Except.error (16, "p10 overflow for 10 ^ " ++ toString exp_p10)
  | some val_p10 =>
    if val_num.exp > val_den.exp then
      match checked_mul val_den.mant val_p10 with
      | none => Except.error (18, "Denominator overflow: " ++ toString val_den.mant ++ " * " ++ toString val_p10)
      | some d => Except.ok ⟨val_num.mant, d⟩
    else
      match checked_mul val_num.mant val_p10 with
      | none => Except.error (20, "Numerator overflow: " ++ toString val_num.mant ++ " * " ++ toString val_p10)
      | some n => Except.ok ⟨n, val_den.mant⟩

/-- Fuel-indexed form of the while loop in fn get_norm: one fuel unit per
iteration of replacing (xa, xb) by (xb, xa mod xb). -/
def gcdLoopF : Nat → Nat → Nat → Nat
  | 0, xa, _ => xa
  | fuel + 1, xa, xb => if xb = 0 then xa else gcdLoopF fuel xb (xa % xb)

/-- Euclidean while loop of fn get_norm. The second argument strictly
decreases at every iteration, so xb units of fuel always suffice. -/
def gcdLoop (xa xb : Nat) : Nat := gcdLoopF xb xa xb

/-- Reducer stage (fn get_norm in the source): division-by-zero check
first, canonical zero second, then Euclidean reduction. -/
def get_norm (fr : Fract) : Except Err Fract :=
  if fr.denom = 0 then Except.error (26, "Division by zero")
  else if fr.numer = 0 then Except.ok ⟨0, 1⟩
  else
    let xa := gcdLoop fr.numer fr.denom
    Except.ok ⟨fr.numer / xa, fr.denom / xa⟩

/-- Whole pipeline (fn get_fract in the source): split, convert both
substrings, align, reduce. -/
def get_fract (inp_fract : List Char) : Except Err Fract :=
  match splitFract inp_fract with
  | Except.error e => Except.error e
  | Except.ok (inp_nom, inp_den) =>
    match get_num FType.Num inp_nom with
    | Except.error e => Except.error e
    | Except.ok val_num =>
      match get_num FType.Den inp_den with
      | Except.error e => Except.error e
      | Except.ok val_den =>
        match alignFract val_num val_den with
        | Except.error e => Except.error e
        | Except.ok mfr_dat => get_norm mfr_dat

/-- Error code of a pipeline result, when it is an error. -/
def errCode {α : Type} : Except Err α → Option Nat
  | Except.error (c, _) => some c
  | Except.ok _ => none

/-- Absolute difference of the two scales, written as the specification
writes it. The aligner computes the same number by branching on which
scale is larger. -/
def scaleDiff (u v : MyNum) : Nat := ((u.exp : Int) - (v.exp : Int)).natAbs

/-- Mantissa string the converter assembles for a substring matching one
of the two number shapes: the substring itself for the all-digit shape,
the concatenation of the two digit groups for the decimal shape. -/
def mantStr (s : List Char) : Option (List Char) :=
  if rxNum1 s then some s
  else (rxNum2 s).map fun p => p.1 ++ p.2

/-- One iteration of the Euclidean while loop of fn get_norm: replace
(xa, xb) by (xb, xa mod xb). -/
def euclidStep (p : Nat × Nat) : Nat × Nat := (p.2, p.1 % p.2)

/-- Character of a single decimal digit value. -/
def digitChar (n : Nat) : Char := Char.ofNat (48 + n)

/-- Fuel-indexed base-10 printer used to build decimal strings of
natural numbers for the round-trip property. -/
def natReprAux : Nat → Nat → List Char
  | 0, _ => []
  | fuel + 1, n =>
      if n < 10 then [digitChar n]
      else natReprAux fuel (n / 10) ++ [digitChar (n % 10)]

/-- Decimal digit string of a natural number; n + 1 units of fuel always
suffice because the number shrinks by a factor of ten each step. -/
def natRepr (n : Nat) : List Char := natReprAux (n + 1) n

/-- Exact rational value of a numerator or denominator substring as the
specification defines it: the concatenated mantissa digits divided by ten
to the count of digits after the separator. This definition follows the
words of the spec, to be compared with the pipeline output. -/
def specTextVal (s : List Char) : Option ℚ :=
  if rxNum1 s then some (digitsVal s)
  else
    match rxNum2 s with
    | some (p1, p2) => some ((digitsVal (p1 ++ p2) : ℚ) / 10 ^ p2.length)
    | none => none

/-- Count of digits after the decimal separator of a substring, as the
specification defines the scale, without the 8-bit cap of the code. -/
def specScale (s : List Char) : Option Nat :=
  if rxNum1 s then some 0
  else
    match rxNum2 s with
    | some (_, p2) => some p2.length
    | none => none

/-- Numerator substring of the boundary input exercising the 8-bit scale
cap: a zero, a decimal comma, 255 zeros and a final one, so 256 digits
after the separator while the mantissa value is 1. -/
def cexNum : List Char := ['0', ','] ++ List.replicate 255 '0' ++ ['1']

/-- Whole boundary input: the 256-fractional-digit numerator over 1. -/
def cexInp : List Char := cexNum ++ ['/', '1']

/-- Digit string of the largest 64-bit unsigned value. -/
def maxDigits : List Char :=
  ['1', '8', '4', '4', '6', '7', '4', '4', '0', '7', '3', '7', '0', '9', '5', '5', '1', '6', '1', '5']

/-- Digit string of one more than the largest 64-bit unsigned value. -/
def maxPlusOneDigits : List Char :=
  ['1', '8', '4', '4', '6', '7', '4', '4', '0', '7', '3', '7', '0', '9', '5', '5', '1', '6', '1', '6']

instance exceptDecEq {ε α : Type} [DecidableEq ε] [DecidableEq α] : DecidableEq (Except ε α) := fun a b =>
  match a, b with
  | Except.error x, Except.error y =>
      if h : x = y then Decidable.isTrue (by rw [h])
      else Decidable.isFalse (fun hc => by injection hc; contradiction)
  | Except.error _, Except.ok _ => Decidable.isFalse (fun hc => by injection hc)
  | Except.ok _, Except.error _ => Decidable.isFalse (fun hc => by injection hc)
  | Except.ok x, Except.ok y =>
      if h : x = y then Decidable.isTrue (by rw [h])
      else Decidable.isFalse (fun hc => by injection hc; contradiction)

/-! Lemmas about the matchers. -/

theorem takeWhile_sandwich {α : Type} (p : α → Bool) (A : List α) (c : α) (B : List α)
    (hA : A.all p = true) (hc : p c = false) :
    (A ++ c :: B).takeWhile p = A := by
  induction A with
  | nil => simp [List.takeWhile_cons, hc]
  | cons a A ih =>
    simp only [List.all_cons, Bool.and_eq_true] at hA
    simp [List.takeWhile_cons, hA.1, ih hA.2]

theorem dropWhile_sandwich {α : Type} (p : α → Bool) (A : List α) (c : α) (B : List α)
    (hA : A.all p = true) (hc : p c = false) :
    (A ++ c :: B).dropWhile p = c :: B := by
  induction A with
  | nil => simp [List.dropWhile_cons, hc]
  | cons a A ih =>
    simp only [List.all_cons, Bool.and_eq_true] at hA
    simp [List.dropWhile_cons, hA.1, ih hA.2]

theorem all_ne_slash_iff (l : List Char) : l.all (· != '/') = true ↔ '/' ∉ l := by
  rw [List.all_eq_true]
  constructor
  · intro h hm
    have := h '/' hm
    simp at this
  · intro h x hx
    have : x ≠ '/' := fun he => h (he ▸ hx)
    simpa using this

theorem count_slash_zero_iff (l : List Char) : l.count '/' = 0 ↔ l.all (· != '/') = true := by
  rw [List.count_eq_zero, all_ne_slash_iff]

theorem rxNum2_some_of (p1 : List Char) (c : Char) (p2 : List Char)
    (h1 : p1.all Char.isDigit = true) (h2 : p2.all Char.isDigit = true)
    (hp1 : p1 ≠ []) (hp2 : p2 ≠ []) (hc : c = ',' ∨ c = '.') :
    rxNum2 (p1 ++ c :: p2) = some (p1, p2) := by
  have hcd : Char.isDigit c = false := by
    rcases hc with h | h <;> subst h <;> decide
  have hsep : (c == ',' || c == '.') = true := by
    rcases hc with h | h <;> subst h <;> decide
  unfold rxNum2
  rw [takeWhile_sandwich _ _ _ _ h1 hcd, dropWhile_sandwich _ _ _ _ h1 hcd]
  simp [hp1, hp2, h2, hsep]

theorem rxNum2_some_inv (s p1 p2 : List Char) (h : rxNum2 s = some (p1, p2)) :
    p1.all Char.isDigit = true ∧ p2.all Char.isDigit = true ∧ p1 ≠ [] ∧ p2 ≠ [] ∧
    ∃ c, s = p1 ++ c :: p2 ∧ (c = ',' ∨ c = '.') := by
  unfold rxNum2 at h
  cases hd : s.dropWhile Char.isDigit with
  | nil => rw [hd] at h; cases h
  | cons c r =>
    rw [hd] at h
    simp only [] at h
    by_cases hcond : (!(s.takeWhile Char.isDigit).isEmpty && (c == ',' || c == '.') &&
        !r.isEmpty && r.all Char.isDigit) = true
    · rw [if_pos hcond] at h
      obtain ⟨h1, h2⟩ : s.takeWhile Char.isDigit = p1 ∧ r = p2 := by
        injection h with h
        exact ⟨congrArg Prod.fst h, congrArg Prod.snd h⟩
      subst h1; subst h2
      simp only [Bool.and_eq_true, Bool.not_eq_true'] at hcond
      obtain ⟨⟨⟨hne1, hsep⟩, hne2⟩, hall2⟩ := hcond
      have hne1n : s.takeWhile Char.isDigit ≠ [] := by
        intro he; rw [he] at hne1; exact absurd hne1 (by decide)
      have hne2n : r ≠ [] := by
        intro he; rw [he] at hne2; exact absurd hne2 (by decide)
      refine ⟨List.all_takeWhile, hall2, hne1n, hne2n, c, ?_, ?_⟩
      · conv_lhs => rw [← List.takeWhile_append_dropWhile Char.isDigit s]
        rw [hd]
      · rcases Bool.or_eq_true _ _ |>.mp hsep with h | h
        · exact Or.inl (beq_iff_eq.mp h)
        · exact Or.inr (beq_iff_eq.mp h)
    · rw [if_neg hcond] at h; cases h

theorem rxFract2_some_of (p1 : List Char) (p2 : List Char)
    (h1 : p1.all (· != '/') = true) (h2 : p2.all (· != '/') = true)
    (hp1 : p1 ≠ []) (hp2 : p2 ≠ []) :
    rxFract2 (p1 ++ '/' :: p2) = some (p1, p2) := by
  have hcd : ('/' != '/') = false := by decide
  unfold rxFract2
  rw [takeWhile_sandwich _ _ _ _ h1 hcd, dropWhile_sandwich _ _ _ _ h1 hcd]
  simp [hp1, hp2, h2]

theorem rxFract2_some_inv (s p1 p2 : List Char) (h : rxFract2 s = some (p1, p2)) :
    p1.all (· != '/') = true ∧ p2.all (· != '/') = true ∧ p1 ≠ [] ∧ p2 ≠ [] ∧
    s = p1 ++ '/' :: p2 := by
  unfold rxFract2 at h
  cases hd : s.dropWhile (· != '/') with
  | nil => rw [hd] at h; cases h
  | cons c r =>
    rw [hd] at h
    simp only [] at h
    by_cases hcond : (!(s.takeWhile (· != '/')).isEmpty && c == '/' &&
        !r.isEmpty && r.all (· != '/')) = true
    · rw [if_pos hcond] at h
      obtain ⟨h1, h2⟩ : s.takeWhile (· != '/') = p1 ∧ r = p2 := by
        injection h with h
        exact ⟨congrArg Prod.fst h, congrArg Prod.snd h⟩
      subst h1; subst h2
      simp only [Bool.and_eq_true, Bool.not_eq_true'] at hcond
      obtain ⟨⟨⟨hne1, hsep⟩, hne2⟩, hall2⟩ := hcond
      have hc : c = '/' := beq_iff_eq.mp hsep
      subst hc
      have hne1n : s.takeWhile (· != '/') ≠ [] := by
        intro he; rw [he] at hne1; exact absurd hne1 (by decide)
      have hne2n : r ≠ [] := by
        intro he; rw [he] at hne2; exact absurd hne2 (by decide)
      refine ⟨List.all_takeWhile, hall2, hne1n, hne2n, ?_⟩
      conv_lhs => rw [← List.takeWhile_append_dropWhile (· != '/') s]
      rw [hd]
    · rw [if_neg hcond] at h; cases h

/-! Lemmas about the Euclidean loop and digit strings. -/

theorem gcdLoopF_eq_gcd (fuel xa xb : Nat) (h : xb ≤ fuel) :
    gcdLoopF fuel xa xb = Nat.gcd xa xb := by
  induction fuel generalizing xa xb with
  | zero =>
    have hb : xb = 0 := Nat.le_zero.mp h
    subst hb
    simp [gcdLoopF]
  | succ n ih =>
    by_cases hb : xb = 0
    · subst hb; simp [gcdLoopF]
    · rw [gcdLoopF, if_neg hb, ih xb (xa % xb)
        (Nat.le_of_lt_succ (Nat.lt_of_lt_of_le (Nat.mod_lt _ (Nat.pos_of_ne_zero hb)) h))]
      rw [Nat.gcd_comm xb (xa % xb), Nat.gcd_comm xa xb, Nat.gcd_rec xb xa]

theorem gcdLoop_eq_gcd (xa xb : Nat) : gcdLoop xa xb = Nat.gcd xa xb :=
  gcdLoopF_eq_gcd xb xa xb (Nat.le_refl xb)

theorem euclid_iterate (b : Nat) : ∀ a : Nat,
    ∃ k, (euclidStep^[k] (a, b)).2 = 0 ∧ (euclidStep^[k] (a, b)).1 = Nat.gcd a b := by
  induction b using Nat.strong_induction_on with
  | _ b ih =>
    intro a
    by_cases hb : b = 0
    · subst hb
      exact ⟨0, rfl, (Nat.gcd_zero_right a).symm⟩
    · obtain ⟨k, hk2, hk1⟩ := ih (a % b) (Nat.mod_lt _ (Nat.pos_of_ne_zero hb)) b
      refine ⟨k + 1, ?_, ?_⟩
      · rw [Function.iterate_succ_apply]
        exact hk2
      · rw [Function.iterate_succ_apply]
        show (euclidStep^[k] (b, a % b)).1 = Nat.gcd a b
        rw [hk1, Nat.gcd_comm b (a % b), ← Nat.gcd_rec b a, Nat.gcd_comm b a]

theorem digitsVal_foldl (v : Nat) (s : List Char) :
    s.foldl (fun v c => 10 * v + charVal c) v = v * 10 ^ s.length + digitsVal s := by
  induction s generalizing v with
  | nil => simp [digitsVal]
  | cons c s ih =>
    have hx : digitsVal (c :: s) = charVal c * 10 ^ s.length + digitsVal s := by
      show List.foldl (fun v c => 10 * v + charVal c) 0 (c :: s) = _
      rw [List.foldl_cons, ih (10 * 0 + charVal c)]
      ring
    rw [List.foldl_cons, ih (10 * v + charVal c), hx, List.length_cons]
    ring

theorem digitsVal_append (xs ys : List Char) :
    digitsVal (xs ++ ys) = digitsVal xs * 10 ^ ys.length + digitsVal ys := by
  unfold digitsVal
  rw [List.foldl_append]
  exact digitsVal_foldl _ ys

theorem digitsVal_singleton (c : Char) : digitsVal [c] = charVal c := by
  simp [digitsVal]

theorem digitChar_val (n : Nat) (h : n < 10) : charVal (digitChar n) = n := by
  interval_cases n <;> decide

theorem digitChar_isDigit (n : Nat) (h : n < 10) : Char.isDigit (digitChar n) = true := by
  interval_cases n <;> decide

theorem digitChar_ne_slash (n : Nat) (h : n < 10) : (digitChar n != '/') = true := by
  interval_cases n <;> decide

theorem natReprAux_spec (n : Nat) : ∀ f : Nat, n < f →
    natReprAux f n ≠ [] ∧ (natReprAux f n).all Char.isDigit = true ∧
    (natReprAux f n).all (· != '/') = true ∧ digitsVal (natReprAux f n) = n := by
  induction n using Nat.strong_induction_on with
  | _ n ih =>
    intro f hf
    obtain ⟨f0, rfl⟩ : ∃ f0, f = f0 + 1 := ⟨f - 1, by omega⟩
    by_cases h10 : n < 10
    · refine ⟨by simp [natReprAux, h10], ?_, ?_, ?_⟩
      · simp [natReprAux, h10, digitChar_isDigit n h10]
      · simp [natReprAux, h10, digitChar_ne_slash n h10]
      · simp [natReprAux, h10, digitsVal_singleton, digitChar_val n h10]
    · have hdiv : n / 10 < n := Nat.div_lt_self (by omega) (by omega)
      have hfu : n / 10 < f0 := by omega
      obtain ⟨hne, hdig, hsl, hval⟩ := ih (n / 10) hdiv f0 hfu
      have hm : n % 10 < 10 := Nat.mod_lt _ (by omega)
      have hrw : natReprAux (f0 + 1) n = natReprAux f0 (n / 10) ++ [digitChar (n % 10)] := by
        rw [natReprAux, if_neg h10]
      refine ⟨by simp [hrw], ?_, ?_, ?_⟩
      · rw [hrw, List.all_append, hdig]
        simp [digitChar_isDigit _ hm]
      · rw [hrw, List.all_append, hsl]
        simp [digitChar_ne_slash _ hm]
      · rw [hrw, digitsVal_append, hval, digitsVal_singleton, digitChar_val _ hm]
        simp
        omega

theorem natRepr_spec (n : Nat) :
    natRepr n ≠ [] ∧ (natRepr n).all Char.isDigit = true ∧
    (natRepr n).all (· != '/') = true ∧ digitsVal (natRepr n) = n :=
  natReprAux_spec n (n + 1) (Nat.lt_succ_self n)

/-! Branch and inversion lemmas for the pipeline stages. -/

theorem get_num_digits (t : FType) (s : List Char)
    (h1 : rxNum1 s = true) (h2 : digitsVal s ≤ U64MAX) :
    get_num t s = Except.ok ⟨digitsVal s, 0⟩ := by
  simp [get_num, h1, parse_u64, h2]

theorem get_num_dec (t : FType) (s p1 p2 : List Char)
    (h0 : rxNum1 s = false) (h1 : rxNum2 s = some (p1, p2))
    (h2 : digitsVal (p1 ++ p2) ≤ U64MAX) :
    get_num t s = Except.ok ⟨digitsVal (p1 ++ p2), u8_try_from_or0 p2.length⟩ := by
  simp [get_num, h0, h1, parse_u64, h2]

theorem get_num_err22 (t : FType) (s : List Char)
    (h0 : rxNum1 s = false) (h1 : rxNum2 s = none) :
    get_num t s = Except.error (22, "Cant parse " ++ labelF t ++ " = " ++ String.mk s) := by
  simp [get_num, h0, h1]

theorem get_num_err24_digits (t : FType) (s : List Char)
    (h1 : rxNum1 s = true) (h2 : U64MAX < digitsVal s) :
    get_num t s = Except.error (24, "Integer overflow " ++ labelF t ++ " = " ++ String.mk s) := by
  simp [get_num, h1, parse_u64, Nat.not_le.mpr h2]

theorem get_num_err24_dec (t : FType) (s p1 p2 : List Char)
    (h0 : rxNum1 s = false) (h1 : rxNum2 s = some (p1, p2))
    (h2 : U64MAX < digitsVal (p1 ++ p2)) :
    get_num t s = Except.error (24, "Integer overflow " ++ labelF t ++ " = " ++ String.mk s) := by
  simp [get_num, h0, h1, parse_u64, Nat.not_le.mpr h2]

theorem get_num_ok_inv (t : FType) (s : List Char) (u : MyNum)
    (h : get_num t s = Except.ok u) :
    (rxNum1 s = true ∧ digitsVal s ≤ U64MAX ∧ u = ⟨digitsVal s, 0⟩) ∨
    (rxNum1 s = false ∧ ∃ p1 p2, rxNum2 s = some (p1, p2) ∧
      digitsVal (p1 ++ p2) ≤ U64MAX ∧
      u = ⟨digitsVal (p1 ++ p2), u8_try_from_or0 p2.length⟩) := by
  by_cases h1 : rxNum1 s
  · left
    by_cases h2 : digitsVal s ≤ U64MAX
    · rw [get_num_digits t s h1 h2] at h
      injection h with h
      exact ⟨h1, h2, h.symm⟩
    · rw [get_num_err24_digits t s h1 (Nat.not_le.mp h2)] at h
      cases h
  · right
    cases hr : rxNum2 s with
    | none => rw [get_num_err22 t s (Bool.not_eq_true _ ▸ h1) hr] at h; cases h
    | some p =>
      obtain ⟨p1, p2⟩ := p
      by_cases h2 : digitsVal (p1 ++ p2) ≤ U64MAX
      · rw [get_num_dec t s p1 p2 (Bool.not_eq_true _ ▸ h1) hr h2] at h
        injection h with h
        exact ⟨Bool.not_eq_true _ ▸ h1, p1, p2, rfl, h2, h.symm⟩
      · rw [get_num_err24_dec t s p1 p2 (Bool.not_eq_true _ ▸ h1) hr (Nat.not_le.mp h2)] at h
        cases h

theorem alignFract_ok_inv (u v : MyNum) (fr : Fract)
    (h : alignFract u v = Except.ok fr) :
    (v.exp < u.exp ∧ fr = ⟨u.mant, v.mant * 10 ^ (u.exp - v.exp)⟩) ∨
    (u.exp ≤ v.exp ∧ fr = ⟨u.mant * 10 ^ (v.exp - u.exp), v.mant⟩) := by
  unfold alignFract checked_pow10 checked_mul at h
  by_cases hgt : v.exp < u.exp
  · left
    refine ⟨hgt, ?_⟩
    simp only [gt_iff_lt, hgt, if_true] at h
    by_cases hp : 10 ^ (u.exp - v.exp) ≤ U64MAX
    · rw [if_pos hp] at h
      simp only [] at h
      by_cases hm : v.mant * 10 ^ (u.exp - v.exp) ≤ U64MAX
      · rw [if_pos hm] at h
        simp only [] at h
        injection h with h
        exact h.symm
      · rw [if_neg hm] at h
        simp only [] at h
        cases h
    · rw [if_neg hp] at h
      cases h
  · right
    refine ⟨Nat.not_lt.mp hgt, ?_⟩
    simp only [gt_iff_lt, hgt, if_false] at h
    by_cases hp : 10 ^ (v.exp - u.exp) ≤ U64MAX
    · rw [if_pos hp] at h
      simp only [] at h
      by_cases hm : u.mant * 10 ^ (v.exp - u.exp) ≤ U64MAX
      · rw [if_pos hm] at h
        simp only [] at h
        injection h with h
        exact h.symm
      · rw [if_neg hm] at h
        simp only [] at h
        cases h
    · rw [if_neg hp] at h
      cases h

theorem get_norm_ok_inv (fr0 fr : Fract) (h : get_norm fr0 = Except.ok fr) :
    fr0.denom ≠ 0 ∧
    ((fr0.numer = 0 ∧ fr = ⟨0, 1⟩) ∨
     (fr0.numer ≠ 0 ∧
      fr = ⟨fr0.numer / Nat.gcd fr0.numer fr0.denom, fr0.denom / Nat.gcd fr0.numer fr0.denom⟩)) := by
  unfold get_norm at h
  by_cases hd : fr0.denom = 0
  · rw [if_pos hd] at h; cases h
  · rw [if_neg hd] at h
    refine ⟨hd, ?_⟩
    by_cases hn : fr0.numer = 0
    · rw [if_pos hn] at h
      injection h with h
      exact Or.inl ⟨hn, h.symm⟩
    · rw [if_neg hn] at h
      injection h with h
      rw [gcdLoop_eq_gcd] at h
      exact Or.inr ⟨hn, h.symm⟩

theorem get_fract_ok_inv (s : List Char) (fr : Fract) (h : get_fract s = Except.ok fr) :
    ∃ a b u v fr0, splitFract s = Except.ok (a, b) ∧
      get_num FType.Num a = Except.ok u ∧ get_num FType.Den b = Except.ok v ∧
      alignFract u v = Except.ok fr0 ∧ get_norm fr0 = Except.ok fr := by
  unfold get_fract at h
  cases h1 : splitFract s with
  | error e => rw [h1] at h; cases h
  | ok ab =>
    obtain ⟨a, b⟩ := ab
    rw [h1] at h
    simp only [] at h
    cases h2 : get_num FType.Num a with
    | error e => rw [h2] at h; cases h
    | ok u =>
      rw [h2] at h
      simp only [] at h
      cases h3 : get_num FType.Den b with
      | error e => rw [h3] at h; cases h
      | ok v =>
        rw [h3] at h
        simp only [] at h
        cases h4 : alignFract u v with
        | error e => rw [h4] at h; cases h
        | ok fr0 =>
          rw [h4] at h
          simp only [] at h
          exact ⟨a, b, u, v, fr0, rfl, h2, h3, h4, h⟩

theorem splitFract_ok_inv (s a b : List Char) (h : splitFract s = Except.ok (a, b)) :
    (rxFract1 s = true ∧ a = s ∧ b = ['1']) ∨
    (rxFract1 s = false ∧ rxFract2 s = some (a, b)) := by
  unfold splitFract at h
  by_cases h1 : rxFract1 s
  · rw [if_pos h1] at h
    injection h with h
    exact Or.inl ⟨h1, (congrArg Prod.fst h).symm, (congrArg Prod.snd h).symm⟩
  · rw [if_neg h1] at h
    cases h2 : rxFract2 s with
    | none => rw [h2] at h; cases h
    | some p =>
      obtain ⟨x, y⟩ := p
      rw [h2] at h
      simp only [] at h
      injection h with h
      have hx := congrArg Prod.fst h
      have hy := congrArg Prod.snd h
      simp only [] at hx hy
      exact Or.inr ⟨Bool.not_eq_true _ ▸ h1, by rw [← hx, ← hy]⟩

/-! Rational-value lemmas. -/

theorem alignFract_val (u v : MyNum) (fr : Fract) (h : alignFract u v = Except.ok fr) :
    (fr.numer : ℚ) / fr.denom = ((u.mant : ℚ) / 10 ^ u.exp) / ((v.mant : ℚ) / 10 ^ v.exp) := by
  have h10 : (10 : ℚ) ≠ 0 := by norm_num
  rcases alignFract_ok_inv u v fr h with ⟨hlt, rfl⟩ | ⟨hle, rfl⟩
  · simp only []
    by_cases hv : v.mant = 0
    · simp [hv]
    · have hvq : (v.mant : ℚ) ≠ 0 := Nat.cast_ne_zero.mpr hv
      have hsplit : u.exp = v.exp + (u.exp - v.exp) := by omega
      rw [hsplit, pow_add]
      push_cast
      field_simp
      ring
  · simp only []
    by_cases hv : v.mant = 0
    · simp [hv]
    · have hvq : (v.mant : ℚ) ≠ 0 := Nat.cast_ne_zero.mpr hv
      have hsplit : v.exp = u.exp + (v.exp - u.exp) := by omega
      rw [hsplit, pow_add]
      push_cast
      field_simp
      ring

theorem get_norm_val (fr0 fr : Fract) (h : get_norm fr0 = Except.ok fr) :
    (fr.numer : ℚ) / fr.denom = (fr0.numer : ℚ) / fr0.denom := by
  obtain ⟨hd, hcase⟩ := get_norm_ok_inv fr0 fr h
  rcases hcase with ⟨hn, rfl⟩ | ⟨hn, rfl⟩
  · simp [hn]
  · have hg : 0 < Nat.gcd fr0.numer fr0.denom :=
      Nat.gcd_pos_of_pos_left _ (Nat.pos_of_ne_zero hn)
    have hgn : Nat.gcd fr0.numer fr0.denom ∣ fr0.numer := Nat.gcd_dvd_left _ _
    have hgd : Nat.gcd fr0.numer fr0.denom ∣ fr0.denom := Nat.gcd_dvd_right _ _
    have hgq : ((Nat.gcd fr0.numer fr0.denom : Nat) : ℚ) ≠ 0 := by
      exact_mod_cast hg.ne'
    simp only []
    rw [Nat.cast_div hgn hgq, Nat.cast_div hgd hgq, div_div_div_comm, div_self hgq, div_one]

theorem get_norm_ok_reduced (fr0 fr : Fract) (h : get_norm fr0 = Except.ok fr) :
    Nat.gcd fr.numer fr.denom = 1 ∧ 1 ≤ fr.denom := by
  obtain ⟨hd, hcase⟩ := get_norm_ok_inv fr0 fr h
  rcases hcase with ⟨hn, rfl⟩ | ⟨hn, rfl⟩
  · exact ⟨by simp, by simp⟩
  · have hg : 0 < Nat.gcd fr0.numer fr0.denom :=
      Nat.gcd_pos_of_pos_left _ (Nat.pos_of_ne_zero hn)
    constructor
    · exact Nat.coprime_div_gcd_div_gcd hg
    · exact Nat.div_pos (Nat.le_of_dvd (Nat.pos_of_ne_zero hd) (Nat.gcd_dvd_right _ _)) hg

theorem get_norm_coprime_fix (n d : Nat) (hc : Nat.gcd n d = 1) (hd : 1 ≤ d) :
    get_norm ⟨n, d⟩ = Except.ok ⟨n, d⟩ := by
  by_cases hn : n = 0
  · subst hn
    have hd1 : d = 1 := by
      have := Nat.gcd_zero_left d
      omega
    subst hd1
    simp [get_norm]
  · have hdz : d ≠ 0 := by omega
    simp [get_norm, hdz, hn, gcdLoop_eq_gcd, hc]

theorem get_num_specTextVal (t : FType) (s : List Char) (u : MyNum) (e : Nat)
    (h : get_num t s = Except.ok u) (hs : specScale s = some e) (he : e ≤ 255) :
    specTextVal s = some ((u.mant : ℚ) / 10 ^ u.exp) := by
  rcases get_num_ok_inv t s u h with ⟨h1, h2, rfl⟩ | ⟨h1, p1, p2, hr, h2, rfl⟩
  · simp [specTextVal, h1]
  · have hsp : specScale s = some p2.length := by
      simp [specScale, h1, hr]
    rw [hs] at hsp
    injection hsp with hsp
    have hlen : p2.length ≤ 255 := hsp ▸ he
    have hcap : u8_try_from_or0 p2.length = p2.length := by
      simp [u8_try_from_or0, hlen]
    simp [specTextVal, h1, hr, hcap]

/-! Shape helper lemmas. -/

theorem rxNum1_true_of (s : List Char) (hne : s ≠ []) (hall : s.all Char.isDigit = true) :
    rxNum1 s = true := by
  unfold rxNum1
  cases s with
  | nil => exact absurd rfl hne
  | cons a l => simp_all

theorem rxNum1_false_of_sep (p1 p2 : List Char) (c : Char) (hc : Char.isDigit c = false) :
    rxNum1 (p1 ++ c :: p2) = false := by
  unfold rxNum1
  simp [List.all_append, List.all_cons, hc]

theorem rxFract1_true_of (s : List Char) (hne : s ≠ []) (hall : s.all (· != '/') = true) :
    rxFract1 s = true := by
  unfold rxFract1
  cases s with
  | nil => exact absurd rfl hne
  | cons a l => simp_all

theorem rxFract1_false_of_sep (p1 p2 : List Char) :
    rxFract1 (p1 ++ '/' :: p2) = false := by
  unfold rxFract1
  simp [List.all_append, List.all_cons]

theorem splitFract_one (s : List Char) (h1 : rxFract1 s = true) :
    splitFract s = Except.ok (s, ['1']) := by
  simp [splitFract, h1]

theorem splitFract_two (s a b : List Char) (h1 : rxFract1 s = false)
    (h2 : rxFract2 s = some (a, b)) :
    splitFract s = Except.ok (a, b) := by
  simp [splitFract, h1, h2]

theorem splitFract_err (s : List Char) (h1 : rxFract1 s = false)
    (h2 : rxFract2 s = none) :
    splitFract s = Except.error (14, "Could not parse fraction") := by
  simp [splitFract, h1, h2]

/-! Claim theorems. -/

/-- C2: for every input string on which get_fract succeeds, the returned
fraction has coprime numerator and denominator, denominator at least one,
and the zero value only in the canonical form 0 over 1. -/
theorem C2_reduced_invariant (s : List Char) (fr : Fract)
    (h : get_fract s = Except.ok fr) :
    Nat.gcd fr.numer fr.denom = 1 ∧ 1 ≤ fr.denom ∧ (fr.numer = 0 → fr = ⟨0, 1⟩) := by
  obtain ⟨a, b, u, v, fr0, h1, h2, h3, h4, h5⟩ := get_fract_ok_inv s fr h
  obtain ⟨hcop, hpos⟩ := get_norm_ok_reduced fr0 fr h5
  refine ⟨hcop, hpos, fun hz => ?_⟩
  have hd1 : fr.denom = 1 := by
    rw [hz, Nat.gcd_zero_left] at hcop
    exact hcop
  cases fr with
  | mk numer denom =>
    simp only [] at hz hd1
    rw [hz, hd1]

/-- C2 witness at the decimal input 35,6/12, which parses to 89 over 30. -/
theorem C2_witness :
    Nat.gcd (89 : Nat) 30 = 1 ∧ (1 : Nat) ≤ 30 ∧ ((89 : Nat) = 0 → Fract.mk 89 30 = ⟨0, 1⟩) :=
  C2_reduced_invariant ['3', '5', ',', '6', '/', '1', '2'] ⟨89, 30⟩ (by decide)

/-- C6: get_norm rejects a zero denominator with code 26 before anything
else, so the unreduced pair 0 over 0 gives code 26 and not 0 over 1; with
a nonzero denominator a zero numerator gives the canonical 0 over 1, and
get_fract on the string 0/5 returns 0 over 1. -/
theorem C6_zero_handling :
    (∀ n : Nat, get_norm ⟨n, 0⟩ = Except.error (26, "Division by zero")) ∧
    get_norm ⟨0, 0⟩ = Except.error (26, "Division by zero") ∧
    (∀ d : Nat, d ≠ 0 → get_norm ⟨0, d⟩ = Except.ok ⟨0, 1⟩) ∧
    get_fract ['0', '/', '5'] = Except.ok ⟨0, 1⟩ := by
  refine ⟨fun n => by simp [get_norm], by simp [get_norm],
    fun d hd => by simp [get_norm, hd], by decide⟩

/-- C6 witness: concrete instances of the zero cases. -/
theorem C6_witness :
    get_norm ⟨7, 0⟩ = Except.error (26, "Division by zero") ∧
    get_norm ⟨0, 5⟩ = Except.ok ⟨0, 1⟩ :=
  ⟨C6_zero_handling.1 7, C6_zero_handling.2.2.1 5 (by decide)⟩

/-- C9: on a pair of nonzero numerator and denominator the Euclidean
while loop reaches a state with second component zero in finitely many
steps, its final first component is the gcd, and get_norm returns the
pair divided by that gcd. -/
theorem C9_euclid_loop (n d : Nat) (hn : n ≠ 0) (hd : d ≠ 0) :
    (∃ k, (euclidStep^[k] (n, d)).2 = 0 ∧ (euclidStep^[k] (n, d)).1 = Nat.gcd n d) ∧
    gcdLoop n d = Nat.gcd n d ∧ Nat.gcd n d ≠ 0 ∧
    get_norm ⟨n, d⟩ = Except.ok ⟨n / Nat.gcd n d, d / Nat.gcd n d⟩ := by
  refine ⟨euclid_iterate d n, gcdLoop_eq_gcd n d, ?_, ?_⟩
  · exact (Nat.gcd_pos_of_pos_left _ (Nat.pos_of_ne_zero hn)).ne'
  · simp [get_norm, hd, hn, gcdLoop_eq_gcd]

/-- C9 witness at the pair 486 and 12 from the unit tests. -/
theorem C9_witness :
    (∃ k, (euclidStep^[k] ((486 : Nat), (12 : Nat))).2 = 0 ∧
      (euclidStep^[k] ((486 : Nat), (12 : Nat))).1 = Nat.gcd 486 12) ∧
    gcdLoop 486 12 = Nat.gcd 486 12 ∧ Nat.gcd 486 12 ≠ 0 ∧
    get_norm ⟨486, 12⟩ = Except.ok ⟨486 / Nat.gcd 486 12, 12 / Nat.gcd 486 12⟩ :=
  C9_euclid_loop 486 12 (by decide) (by decide)

theorem scaleDiff_eq (u v : MyNum) :
    scaleDiff u v = if u.exp > v.exp then u.exp - v.exp else v.exp - u.exp := by
  unfold scaleDiff
  split <;> omega

/-- C4: the aligner computes 10 to the absolute scale difference with a
checked power (code 16 on overflow, taking precedence); when the
numerator scale is larger the denominator mantissa alone is scaled
(code 18 on overflow), otherwise, including equal scales, the numerator
mantissa alone is scaled (code 20 on overflow). -/
theorem C4_aligner (u v : MyNum) :
    (U64MAX < 10 ^ scaleDiff u v →
      alignFract u v = Except.error (16, "p10 overflow for 10 ^ " ++ toString (scaleDiff u v))) ∧
    (10 ^ scaleDiff u v ≤ U64MAX → v.exp < u.exp →
      (U64MAX < v.mant * 10 ^ scaleDiff u v →
        alignFract u v = Except.error (18, "Denominator overflow: " ++ toString v.mant ++
          " * " ++ toString (10 ^ scaleDiff u v))) ∧
      (v.mant * 10 ^ scaleDiff u v ≤ U64MAX →
        alignFract u v = Except.ok ⟨u.mant, v.mant * 10 ^ scaleDiff u v⟩)) ∧
    (10 ^ scaleDiff u v ≤ U64MAX → u.exp ≤ v.exp →
      (U64MAX < u.mant * 10 ^ scaleDiff u v →
        alignFract u v = Except.error (20, "Numerator overflow: " ++ toString u.mant ++
          " * " ++ toString (10 ^ scaleDiff u v))) ∧
      (u.mant * 10 ^ scaleDiff u v ≤ U64MAX →
        alignFract u v = Except.ok ⟨u.mant * 10 ^ scaleDiff u v, v.mant⟩)) := by
  have hrw : alignFract u v =
      match checked_pow10 (scaleDiff u v) with
      | none => Except.error (16, "p10 overflow for 10 ^ " ++ toString (scaleDiff u v))
      | some val_p10 =>
        if u.exp > v.exp then
          match checked_mul v.mant val_p10 with
          | none => Except.error (18, "Denominator overflow: " ++ toString v.mant ++
              " * " ++ toString val_p10)
          | some d => Except.ok ⟨u.mant, d⟩
        else
          match checked_mul u.mant val_p10 with
          | none => Except.error (20, "Numerator overflow: " ++ toString u.mant ++
              " * " ++ toString val_p10)
          | some n => Except.ok ⟨n, v.mant⟩ := by
    rw [scaleDiff_eq]
    rfl
  refine ⟨fun hp => ?_, fun hp hgt => ⟨fun hm => ?_, fun hm => ?_⟩,
    fun hp hle => ⟨fun hm => ?_, fun hm => ?_⟩⟩
  · rw [hrw]
    simp [checked_pow10, Nat.not_le.mpr hp]
  · rw [hrw]
    simp [checked_pow10, hp, checked_mul, hgt, Nat.not_le.mpr hm]
  · rw [hrw]
    simp [checked_pow10, hp, checked_mul, hgt, hm]
  · rw [hrw]
    simp [checked_pow10, hp, checked_mul, Nat.not_lt.mpr hle, Nat.not_le.mpr hm]
  · rw [hrw]
    simp [checked_pow10, hp, checked_mul, Nat.not_lt.mpr hle, hm]

/-- C4 witness: a scale difference of 255 overflows the power of ten with
code 16, and a small difference scales the denominator mantissa. -/
theorem C4_witness :
    alignFract ⟨1, 255⟩ ⟨1, 0⟩ =
      Except.error (16, "p10 overflow for 10 ^ " ++ toString (scaleDiff ⟨1, 255⟩ ⟨1, 0⟩)) ∧
    alignFract ⟨5, 3⟩ ⟨7, 1⟩ = Except.ok ⟨5, 7 * 10 ^ scaleDiff ⟨5, 3⟩ ⟨7, 1⟩⟩ :=
  ⟨(C4_aligner ⟨1, 255⟩ ⟨1, 0⟩).1 (by decide),
   ((C4_aligner ⟨5, 3⟩ ⟨7, 1⟩).2.1 (by decide) (by decide)).2 (by decide)⟩

/-- C7: for any substring matching one of the two number shapes, the
converter fails with code 24 exactly when the concatenated digit string
exceeds the largest 64-bit unsigned value, and the digit string of that
largest value itself succeeds. -/
theorem C7_overflow_boundary :
    (∀ (t : FType) (s m : List Char), mantStr s = some m →
      (errCode (get_num t s) = some 24 ↔ U64MAX < digitsVal m)) ∧
    get_num FType.Num maxDigits = Except.ok ⟨U64MAX, 0⟩ := by
  constructor
  · intro t s m hm
    unfold mantStr at hm
    by_cases h1 : rxNum1 s
    · rw [if_pos h1] at hm
      injection hm with hm
      subst hm
      constructor
      · intro hc
        by_contra hnc
        rw [get_num_digits t s h1 (Nat.not_lt.mp hnc)] at hc
        simp [errCode] at hc
      · intro hlt
        rw [get_num_err24_digits t s h1 hlt]
        rfl
    · rw [if_neg h1] at hm
      have h1f : rxNum1 s = false := Bool.not_eq_true _ ▸ h1
      cases hr : rxNum2 s with
      | none => rw [hr] at hm; cases hm
      | some p =>
        obtain ⟨p1, p2⟩ := p
        rw [hr] at hm
        simp only [Option.map_some'] at hm
        injection hm with hm
        subst hm
        constructor
        · intro hc
          by_contra hnc
          rw [get_num_dec t s p1 p2 h1f hr (Nat.not_lt.mp hnc)] at hc
          simp [errCode] at hc
        · intro hlt
          rw [get_num_err24_dec t s p1 p2 h1f hr hlt]
          rfl
  · decide

/-- C7 witness: a twenty-digit string of nines matches the all-digit
shape, and code 24 is equivalent to exceeding the 64-bit bound there. -/
theorem C7_witness :
    errCode (get_num FType.Num (List.replicate 20 '9')) = some 24 ↔
      U64MAX < digitsVal (List.replicate 20 '9') :=
  C7_overflow_boundary.1 FType.Num (List.replicate 20 '9') (List.replicate 20 '9') (by decide)

/-- C10: when a decimal-shaped substring has more than 255 digits after
the separator but its concatenated digit string still fits in 64 unsigned
bits (possible through leading zeros), the converter succeeds with scale 0
instead of the true count, and the 256-fractional-digit boundary input
over 1 parses to the fraction 1 over 1. -/
theorem C10_scale_cap :
    (∀ (t : FType) (s p1 p2 : List Char) (c : Char), s = p1 ++ c :: p2 →
      p1 ≠ [] → p1.all Char.isDigit = true → p2.all Char.isDigit = true →
      (c = ',' ∨ c = '.') → 255 < p2.length → digitsVal (p1 ++ p2) ≤ U64MAX →
      get_num t s = Except.ok ⟨digitsVal (p1 ++ p2), 0⟩) ∧
    get_fract cexInp = Except.ok ⟨1, 1⟩ := by
  constructor
  · intro t s p1 p2 c hs hp1 hd1 hd2 hc hlen hval
    subst hs
    have hp2 : p2 ≠ [] := by
      intro he
      rw [he] at hlen
      simp at hlen
    have hcd : Char.isDigit c = false := by
      rcases hc with h | h <;> subst h <;> decide
    have h1 : rxNum1 (p1 ++ c :: p2) = false := rxNum1_false_of_sep p1 p2 c hcd
    have hr2 : rxNum2 (p1 ++ c :: p2) = some (p1, p2) :=
      rxNum2_some_of p1 c p2 hd1 hd2 hp1 hp2 hc
    have hcap : u8_try_from_or0 p2.length = 0 := by
      unfold u8_try_from_or0
      rw [if_neg (by omega)]
    rw [get_num_dec t _ p1 p2 h1 hr2 hval, hcap]
  · decide

/-- C10 witness: the converter on the 256-fractional-digit numerator
substring itself, with mantissa value 1 and capped scale 0. -/
theorem C10_witness :
    get_num FType.Num (['0'] ++ ',' :: (List.replicate 255 '0' ++ ['1'])) =
      Except.ok ⟨digitsVal (['0'] ++ (List.replicate 255 '0' ++ ['1'])), 0⟩ :=
  C10_scale_cap.1 FType.Num (['0'] ++ ',' :: (List.replicate 255 '0' ++ ['1']))
    ['0'] (List.replicate 255 '0' ++ ['1']) ',' rfl (by decide) (by decide) (by decide)
    (Or.inl rfl) (by decide) (by decide)

/-- C3 (amended): the converter returns the mantissa and scale described
by the claim whenever the concatenated digit value fits in 64 unsigned
bits and, for the decimal shape, the trailing digit group has at most 255
digits; an ASCII substring matching neither digit shape fails with
code 22. Substrings with non-ASCII characters are outside this statement:
the digit class of the program is Unicode-wide, so a substring of
non-ASCII decimal digits matches a digit shape there and then fails the
u64 conversion with code 24 rather than 22. -/
theorem C3_converter (t : FType) (s : List Char) :
    (s ≠ [] → s.all Char.isDigit = true → digitsVal s ≤ U64MAX →
      get_num t s = Except.ok ⟨digitsVal s, 0⟩) ∧
    (∀ (p1 p2 : List Char) (c : Char), s = p1 ++ c :: p2 → p1 ≠ [] → p2 ≠ [] →
      p1.all Char.isDigit = true → p2.all Char.isDigit = true → (c = ',' ∨ c = '.') →
      digitsVal (p1 ++ p2) ≤ U64MAX → p2.length ≤ 255 →
      get_num t s = Except.ok ⟨digitsVal (p1 ++ p2), p2.length⟩) ∧
    (s.all (fun c => c.toNat < 128) = true → rxNum1 s = false → rxNum2 s = none →
      get_num t s = Except.error (22, "Cant parse " ++ labelF t ++ " = " ++ String.mk s)) := by
  refine ⟨fun hne hall hval => ?_,
    fun p1 p2 c hs hp1 hp2 hd1 hd2 hc hval hlen => ?_,
    fun _ h1 h2 => get_num_err22 t s h1 h2⟩
  · exact get_num_digits t s (rxNum1_true_of s hne hall) hval
  · subst hs
    have hcd : Char.isDigit c = false := by
      rcases hc with h | h <;> subst h <;> decide
    have h1 : rxNum1 (p1 ++ c :: p2) = false := rxNum1_false_of_sep p1 p2 c hcd
    have hr2 : rxNum2 (p1 ++ c :: p2) = some (p1, p2) :=
      rxNum2_some_of p1 c p2 hd1 hd2 hp1 hp2 hc
    have hcap : u8_try_from_or0 p2.length = p2.length := by
      unfold u8_try_from_or0
      rw [if_pos hlen]
    rw [get_num_dec t _ p1 p2 h1 hr2 hval, hcap]

/-- C3 counterexample to the unamended claim: the all-digit string of the
value 2 to the 64, one above the 64-bit maximum, does not make the
converter return its mantissa; the converter fails with code 24 instead. -/
theorem C3_counterexample :
    maxPlusOneDigits ≠ [] ∧ maxPlusOneDigits.all Char.isDigit = true ∧
    get_num FType.Num maxPlusOneDigits ≠ Except.ok ⟨digitsVal maxPlusOneDigits, 0⟩ ∧
    get_num FType.Num maxPlusOneDigits =
      Except.error (24, "Integer overflow " ++ labelF FType.Num ++ " = " ++
        String.mk maxPlusOneDigits) := by
  refine ⟨by decide, by decide, by decide, by decide⟩

/-- C3 witness: one instance of each amended branch, on the substrings
123, 1,23 and a. -/
theorem C3_witness :
    get_num FType.Num ['1', '2', '3'] = Except.ok ⟨digitsVal ['1', '2', '3'], 0⟩ ∧
    get_num FType.Den (['1'] ++ ',' :: ['2', '3']) =
      Except.ok ⟨digitsVal (['1'] ++ ['2', '3']), (['2', '3'] : List Char).length⟩ ∧
    get_num FType.Num ['a'] =
      Except.error (22, "Cant parse " ++ labelF FType.Num ++ " = " ++ String.mk ['a']) :=
  ⟨(C3_converter FType.Num ['1', '2', '3']).1 (by decide) (by decide) (by decide),
   (C3_converter FType.Den (['1'] ++ ',' :: ['2', '3'])).2.1 ['1'] ['2', '3'] ','
     rfl (by decide) (by decide) (by decide) (by decide) (Or.inl rfl) (by decide) (by decide),
   (C3_converter FType.Num ['a']).2.2 (by decide) (by decide) (by decide)⟩

/-- C5: the splitter maps a nonempty slash-free input to the pair of the
whole string and the literal 1, an input made of two nonempty slash-free
segments around a single slash to that pair of segments, and fails with
code 14 for every other shape: empty input, a slash at the very start or
very end with no other slash, or at least two slashes. -/
theorem C5_splitter (s : List Char) :
    (s ≠ [] → s.count '/' = 0 → splitFract s = Except.ok (s, ['1'])) ∧
    (∀ a b : List Char, s = a ++ '/' :: b → a ≠ [] → b ≠ [] →
      a.count '/' = 0 → b.count '/' = 0 → splitFract s = Except.ok (a, b)) ∧
    (s = [] ∨ 2 ≤ s.count '/' ∨
      (s.count '/' = 1 ∧ (s.head? = some '/' ∨ s.getLast? = some '/')) →
      splitFract s = Except.error (14, "Could not parse fraction")) ∧
    (splitFract s = Except.error (14, "Could not parse fraction") →
      get_fract s = Except.error (14, "Could not parse fraction")) := by
  refine ⟨fun hne hcount => ?_, fun a b hs ha hb hca hcb => ?_, fun hshape => ?_,
    fun h14 => ?_⟩
  · exact splitFract_one s (rxFract1_true_of s hne ((count_slash_zero_iff s).mp hcount))
  · subst hs
    have halla : a.all (· != '/') = true := (count_slash_zero_iff a).mp hca
    have hallb : b.all (· != '/') = true := (count_slash_zero_iff b).mp hcb
    exact splitFract_two _ a b (rxFract1_false_of_sep a b)
      (rxFract2_some_of a b halla hallb ha hb)
  · have hmem_of_count : ∀ k, s.count '/' = k → 1 ≤ k → rxFract1 s = false := by
      intro k hk h1k
      have hm : '/' ∈ s := by
        by_contra hnm
        rw [← List.count_eq_zero] at hnm
        omega
      have : s.all (· != '/') = false := by
        by_contra hxx
        have := (all_ne_slash_iff s).mp (Bool.of_not_eq_false hxx)
        exact this hm
      unfold rxFract1
      simp [this]
    rcases hshape with rfl | h2 | ⟨h1, hends⟩
    · decide
    · have h1 : rxFract1 s = false := hmem_of_count _ rfl (by omega)
      have hnone : rxFract2 s = none := by
        cases hr : rxFract2 s with
        | none => rfl
        | some p =>
          obtain ⟨x, y⟩ := p
          obtain ⟨hax, hay, hnx, hny, heq⟩ := rxFract2_some_inv s x y hr
          rw [heq, List.count_append, List.count_cons_self,
            (count_slash_zero_iff x).mpr hax, (count_slash_zero_iff y).mpr hay] at h2
          omega
      exact splitFract_err s h1 hnone
    · have h1f : rxFract1 s = false := hmem_of_count _ h1 (by omega)
      have hnone : rxFract2 s = none := by
        cases hr : rxFract2 s with
        | none => rfl
        | some p =>
          obtain ⟨x, y⟩ := p
          obtain ⟨hax, hay, hnx, hny, heq⟩ := rxFract2_some_inv s x y hr
          rcases hends with hh | hl
          · obtain ⟨xh, xt, rfl⟩ : ∃ xh xt, x = xh :: xt := by
              cases x with
              | nil => exact absurd rfl hnx
              | cons xh xt => exact ⟨xh, xt, rfl⟩
            rw [heq] at hh
            rw [List.cons_append, List.head?_cons] at hh
            injection hh with hh
            have : (xh != '/') = true := by
              have := List.all_eq_true.mp hax xh (by simp)
              exact this
            rw [hh] at this
            simp at this
          · rcases List.eq_nil_or_concat y with rfl | ⟨ys, yl, rfl⟩
            · exact absurd rfl hny
            · rw [List.concat_eq_append] at heq
              rw [heq] at hl
              rw [show x ++ '/' :: (ys ++ [yl]) = (x ++ '/' :: ys) ++ [yl] by simp] at hl
              rw [List.getLast?_concat] at hl
              injection hl with hl
              have : (yl != '/') = true := by
                have := List.all_eq_true.mp hay yl (by simp)
                exact this
              rw [hl] at this
              simp at this
      exact splitFract_err s h1f hnone
  · unfold get_fract
    rw [h14]

/-- C5 witness: the three splitter shapes on concrete inputs, and the
propagation of code 14 through the whole pipeline. -/
theorem C5_witness :
    splitFract ['7'] = Except.ok (['7'], ['1']) ∧
    splitFract ['3', '/', '4'] = Except.ok (['3'], ['4']) ∧
    splitFract ['1', '/', '/', '2'] = Except.error (14, "Could not parse fraction") ∧
    get_fract ['1', '/', '/', '2'] = Except.error (14, "Could not parse fraction") :=
  ⟨(C5_splitter ['7']).1 (by decide) (by decide),
   (C5_splitter ['3', '/', '4']).2.1 ['3'] ['4'] rfl (by decide) (by decide)
     (by decide) (by decide),
   (C5_splitter ['1', '/', '/', '2']).2.2.1 (Or.inr (Or.inl (by decide))),
   (C5_splitter ['1', '/', '/', '2']).2.2.2 (by decide)⟩

theorem alignFract_zero_exp (n d : Nat) (hn : n ≤ U64MAX) :
    alignFract ⟨n, 0⟩ ⟨d, 0⟩ = Except.ok ⟨n, d⟩ := by
  unfold alignFract checked_pow10 checked_mul
  simp only [gt_iff_lt, lt_self_iff_false, if_false, Nat.sub_zero, pow_zero, Nat.mul_one]
  rw [if_pos (by decide : (1 : Nat) ≤ U64MAX)]
  simp only []
  have hn1 : n * 1 ≤ U64MAX := by simpa using hn
  rw [if_pos hn1]
  simp

/-- C8: any coprime pair of 64-bit values with denominator at least one
round-trips through the pipeline: parsing the decimal string of the
numerator, a slash, and the decimal string of the denominator returns
exactly that pair. -/
theorem C8_roundtrip (n d : Nat) (hn : n ≤ U64MAX) (hd : d ≤ U64MAX)
    (hcop : Nat.gcd n d = 1) (hd1 : 1 ≤ d) :
    get_fract (natRepr n ++ '/' :: natRepr d) = Except.ok ⟨n, d⟩ := by
  obtain ⟨hAne, hAdig, hAsl, hAval⟩ := natRepr_spec n
  obtain ⟨hBne, hBdig, hBsl, hBval⟩ := natRepr_spec d
  have hsplit : splitFract (natRepr n ++ '/' :: natRepr d) =
      Except.ok (natRepr n, natRepr d) :=
    splitFract_two _ _ _ (rxFract1_false_of_sep _ _)
      (rxFract2_some_of _ _ hAsl hBsl hAne hBne)
  have hnum : get_num FType.Num (natRepr n) = Except.ok ⟨n, 0⟩ := by
    have := get_num_digits FType.Num (natRepr n) (rxNum1_true_of _ hAne hAdig)
      (by rw [hAval]; exact hn)
    rw [hAval] at this
    exact this
  have hden : get_num FType.Den (natRepr d) = Except.ok ⟨d, 0⟩ := by
    have := get_num_digits FType.Den (natRepr d) (rxNum1_true_of _ hBne hBdig)
      (by rw [hBval]; exact hd)
    rw [hBval] at this
    exact this
  unfold get_fract
  rw [hsplit]
  simp only []
  rw [hnum]
  simp only []
  rw [hden]
  simp only []
  rw [alignFract_zero_exp n d hn]
  simp only []
  exact get_norm_coprime_fix n d hcop hd1

/-- C8 witness at the coprime pair 1 and 2. -/
theorem C8_witness : get_fract (natRepr 1 ++ '/' :: natRepr 2) = Except.ok ⟨1, 2⟩ :=
  C8_roundtrip 1 2 (by decide) (by decide) (by simp [Nat.gcd_one_left]) (by decide)

/-- C1 (amended): for every input on which get_fract succeeds, and whose
numerator and denominator substrings each carry at most 255 digits after
their decimal separator, the returned fraction read as a rational equals
the exact rational value of the numerator substring divided by the exact
rational value of the denominator substring. -/
theorem C1_exact_value (s : List Char) (fr : Fract) (a b : List Char)
    (ea eb : Nat) (qa qb : ℚ)
    (hok : get_fract s = Except.ok fr)
    (hsplit : splitFract s = Except.ok (a, b))
    (hea : specScale a = some ea) (hea255 : ea ≤ 255)
    (heb : specScale b = some eb) (heb255 : eb ≤ 255)
    (hqa : specTextVal a = some qa) (hqb : specTextVal b = some qb) :
    (fr.numer : ℚ) / fr.denom = qa / qb := by
  obtain ⟨a0, b0, u, v, fr0, hsplit0, hnum, hden, halign, hnorm⟩ := get_fract_ok_inv s fr hok
  rw [hsplit] at hsplit0
  injection hsplit0 with hab
  rw [Prod.mk.injEq] at hab
  obtain ⟨h1, h2⟩ := hab
  subst h1
  subst h2
  have hva := get_num_specTextVal FType.Num a u ea hnum hea hea255
  rw [hqa] at hva
  injection hva with hva
  have hvb := get_num_specTextVal FType.Den b v eb hden heb heb255
  rw [hqb] at hvb
  injection hvb with hvb
  rw [hva, hvb]
  calc (fr.numer : ℚ) / fr.denom
      = (fr0.numer : ℚ) / fr0.denom := get_norm_val fr0 fr hnorm
    _ = ((u.mant : ℚ) / 10 ^ u.exp) / ((v.mant : ℚ) / 10 ^ v.exp) :=
        alignFract_val u v fr0 halign

/-- C1 witness at the decimal input 35,6/12: the parsed fraction 89 over
30 equals 35.6 divided by 12 exactly. -/
theorem C1_witness :
    ((Fract.mk 89 30).numer : ℚ) / ((Fract.mk 89 30).denom : ℚ) =
      ((digitsVal (['3', '5'] ++ ['6']) : ℚ) / 10 ^ (['6'] : List Char).length) /
      ((digitsVal ['1', '2'] : ℚ)) :=
  C1_exact_value ['3', '5', ',', '6', '/', '1', '2'] ⟨89, 30⟩ ['3', '5', ',', '6'] ['1', '2']
    1 0
    ((digitsVal (['3', '5'] ++ ['6']) : ℚ) / 10 ^ (['6'] : List Char).length)
    ((digitsVal ['1', '2'] : ℚ))
    (by decide) (by decide) (by decide) (by decide) (by decide) (by decide) rfl rfl

/-- C1 counterexample to the unamended claim: on the boundary input whose
numerator substring has 256 digits after the comma, the pipeline succeeds
with the fraction 1 over 1, while the exact textual value of the input is
1 over 10 to the 256, so the two rationals differ. -/
theorem C1_counterexample :
    get_fract cexInp = Except.ok ⟨1, 1⟩ ∧
    splitFract cexInp = Except.ok (cexNum, ['1']) ∧
    specScale cexNum = some 256 ∧
    specTextVal cexNum = some ((1 : ℚ) / 10 ^ 256) ∧
    specTextVal ['1'] = some (1 : ℚ) ∧
    ((Fract.mk 1 1).numer : ℚ) / ((Fract.mk 1 1).denom : ℚ) ≠ ((1 : ℚ) / 10 ^ 256) / 1 := by
  have hr1 : rxNum1 cexNum = false := by decide
  have hr2 : rxNum2 cexNum = some (['0'], List.replicate 255 '0' ++ ['1']) := by decide
  have hdv : digitsVal (['0'] ++ (List.replicate 255 '0' ++ ['1'])) = 1 := by decide
  have hlen : (List.replicate 255 '0' ++ ['1']).length = 256 := by decide
  refine ⟨by decide, by decide, ?_, ?_, ?_, ?_⟩
  · simp only [specScale, hr1, hr2, Bool.false_eq_true, if_false]
    rw [hlen]
  · simp only [specTextVal, hr1, hr2, Bool.false_eq_true, if_false]
    rw [hdv, hlen]
    norm_num
  · have h1 : rxNum1 ['1'] = true := by decide
    have hdv1 : digitsVal ['1'] = 1 := by decide
    simp only [specTextVal, h1, if_true]
    rw [hdv1]
    norm_num
  · show ((1 : Nat) : ℚ) / ((1 : Nat) : ℚ) ≠ ((1 : ℚ) / 10 ^ 256) / 1
    norm_num

end Mfract
